import Mathlib

/-!
Verification of the `qbVector` class from the qbLinAlg linear algebra
library (src/qbVector.h), a generic fixed-size mathematical vector type.

The embedding mirrors the C++ source:
* `qbVector α` holds the two data members `m_vectorData` (a `std::vector<T>`,
  modelled as `List α`) and `m_nDims` (an `int` holding the element count,
  modelled as `ℕ`: the only way the source ever sets it is from a constructor
  argument or a `std::vector` size, and constructing a `std::vector` from a
  negative count fails before `m_nDims` could become negative).
* Operations that `throw std::invalid_argument` are modelled with the
  `QbResult` type, whose `err` constructor carries which of the three
  distinct exception messages was thrown.
* Unchecked accesses through `std::vector::operator[]` out of range are
  undefined behavior in C++; they are modelled by the `QbResult.undef`
  (or `Option.none`-like) outcome, which is distinct from any thrown error.
* Loops `for (i = 0; i < m_nDims; ++i)` reading `m_vectorData.at(i)` are
  modelled by mapping/folding over `List.range m_nDims`, reading elements
  with `List.getD`.  (`at` would throw `std::out_of_range` when
  `m_nDims` exceeds the stored size; for every vector reachable through the
  public interface `m_vectorData.length = m_nDims` — proved below — so all
  such reads are in range and the `getD` default is never consulted.)
* The element type `T` is generic in the source; it is embedded generically
  over a `Field` (the spec's numeric capability: `+`, `-`, `*`, `/`, `0`,
  `1`).  The square root used by `norm` exists only for `ℝ`, so the
  norm/normalization family is defined on `qbVector ℝ` with `Real.sqrt`.
-/

namespace QbLinAlg

/-- The three distinct failure messages the source can throw:
`"Vector dimensions do not match."` (and the dot/cross variant of the same
dimension check), `"The cross-product can only be computed for
three-dimensional vectors."`, and `"Vector index out of range"`. -/
inductive VecError : Type
  | dimensionMismatch : VecError
  | invalidDimension : VecError
  | indexOutOfRange : VecError
deriving DecidableEq, Repr

/-- Outcome of a C++ member function call: a returned value, a thrown
`std::invalid_argument` (tagged with which check fired), or undefined
behavior (an unchecked out-of-range `std::vector::operator[]` access). -/
inductive QbResult (α : Type) : Type
  | ok : α → QbResult α
  | err : VecError → QbResult α
  | undef : QbResult α
deriving DecidableEq, Repr

/-- The class `qbVector<T>` with its two data members
`std::vector<T> m_vectorData` and `int m_nDims`. -/
structure qbVector (α : Type) : Type where
  m_vectorData : List α
  m_nDims : ℕ
deriving DecidableEq, Repr

variable {α : Type} [Field α]

/-- Reading `m_vectorData.at(i)`.  Every use below happens with
`i < m_nDims`, which is in range whenever `m_vectorData.length = m_nDims`. -/
def atI (v : qbVector α) (i : ℕ) : α :=
  v.m_vectorData.getD i 0

/-- Default constructor `qbVector()`: zero dimensions, empty storage. -/
def qbVector.mkDefault : qbVector α :=
  { m_vectorData := [], m_nDims := 0 }

/-- Constructor `qbVector(int numDims)`: `numDims` copies of
`static_cast<T>(0.0)`. -/
def qbVector.mkDims (numDims : ℕ) : qbVector α :=
  { m_vectorData := List.replicate numDims 0, m_nDims := numDims }

/-- Constructor `qbVector(std::vector<T> inputData)`: stores the data and
sets `m_nDims` to its size. -/
def qbVector.mkData (inputData : List α) : qbVector α :=
  { m_vectorData := inputData, m_nDims := inputData.length }

/-- Method `GetNumDims()`. -/
def GetNumDims (v : qbVector α) : ℕ :=
  v.m_nDims

/-- Method `data()`: returns a copy of the underlying `std::vector`. -/
def qbData (v : qbVector α) : List α :=
  v.m_vectorData

/-- Method `GetElement(int index)`: `return m_vectorData[index];` — UNCHECKED.
A negative `index` converts to a huge `size_t`, so any out-of-range index
(negative or too large) is an unchecked out-of-range access: undefined
behavior, not a thrown exception. -/
def GetElement (v : qbVector α) (index : ℤ) : QbResult α :=
  if index < 0 then QbResult.undef
  else
    match v.m_vectorData.get? index.toNat with
    | some x => QbResult.ok x
    | none => QbResult.undef

/-- Method `SetElement(int index, T value)`: `m_vectorData[index] = value;` —
UNCHECKED, like `GetElement`. -/
def SetElement (v : qbVector α) (index : ℤ) (value : α) : QbResult (qbVector α) :=
  if index < 0 then QbResult.undef
  else if index.toNat < v.m_vectorData.length then
    QbResult.ok { v with m_vectorData := v.m_vectorData.set index.toNat value }
  else QbResult.undef

/-- Member `operator+`: dimension check, then elementwise sum pushed into
`resultData`, returned through the `std::vector` constructor. -/
def vecAdd (a rhs : qbVector α) : QbResult (qbVector α) :=
  if a.m_nDims ≠ rhs.m_nDims then QbResult.err VecError.dimensionMismatch
  else
    QbResult.ok (qbVector.mkData
      ((List.range a.m_nDims).map (fun i => atI a i + atI rhs i)))

/-- Member `operator-`: dimension check, then elementwise difference. -/
def vecSub (a rhs : qbVector α) : QbResult (qbVector α) :=
  if a.m_nDims ≠ rhs.m_nDims then QbResult.err VecError.dimensionMismatch
  else
    QbResult.ok (qbVector.mkData
      ((List.range a.m_nDims).map (fun i => atI a i - atI rhs i)))

/-- Member `operator*(const T&)`: elementwise `m_vectorData.at(i) * rhs`.
No dimension precondition; never throws. -/
def scalarMulR (a : qbVector α) (rhs : α) : qbVector α :=
  qbVector.mkData ((List.range a.m_nDims).map (fun i => atI a i * rhs))

/-- Friend `operator*(const T& lhs, const qbVector<T>& rhs)`: elementwise
`lhs * rhs.m_vectorData.at(i)`. -/
def scalarMulL (lhs : α) (rhs : qbVector α) : qbVector α :=
  qbVector.mkData ((List.range rhs.m_nDims).map (fun i => lhs * atI rhs i))

/-- Member `operator*(const qbVector<T>&)`: Hadamard (elementwise) product
after a dimension check. -/
def elemMul (a rhs : qbVector α) : QbResult (qbVector α) :=
  if a.m_nDims ≠ rhs.m_nDims then QbResult.err VecError.dimensionMismatch
  else
    QbResult.ok (qbVector.mkData
      ((List.range a.m_nDims).map (fun i => atI a i * atI rhs i)))

/-- Mutable `operator[](const size_t idx)` used as an rvalue read: the
source checks `idx < 0 or idx >= m_nDims` and throws
`"Vector index out of range"`.  `idx` has the unsigned type `size_t`,
modelled as `ℕ`, so the `idx < 0` comparison is kept literally as written.
The body then reads `m_vectorData[idx]` unchecked. -/
def opIndexRead (v : qbVector α) (idx : ℕ) : QbResult α :=
  if idx < 0 ∨ v.m_nDims ≤ idx then QbResult.err VecError.indexOutOfRange
  else
    match v.m_vectorData.get? idx with
    | some x => QbResult.ok x
    | none => QbResult.undef

/-- Mutable `operator[](const size_t idx)` used as an lvalue write
(`v[idx] = value`): the same `idx < 0 or idx >= m_nDims` check, then an
unchecked write through the returned reference. -/
def opIndexWrite (v : qbVector α) (idx : ℕ) (value : α) : QbResult (qbVector α) :=
  if idx < 0 ∨ v.m_nDims ≤ idx then QbResult.err VecError.indexOutOfRange
  else if idx < v.m_vectorData.length then
    QbResult.ok { v with m_vectorData := v.m_vectorData.set idx value }
  else QbResult.undef

/-- Const `operator[](const size_t idx) const`: identical check and read. -/
def opIndexConst (v : qbVector α) (idx : ℕ) : QbResult α :=
  if idx < 0 ∨ v.m_nDims ≤ idx then QbResult.err VecError.indexOutOfRange
  else
    match v.m_vectorData.get? idx with
    | some x => QbResult.ok x
    | none => QbResult.undef

/-- Static `dot(a, b)`: dimension check, then
`cumulativeSum += a.at(i) * b.at(i)` over `i < a.m_nDims`, starting from
`static_cast<T>(0.0)`. -/
def dot (a b : qbVector α) : QbResult α :=
  if a.m_nDims ≠ b.m_nDims then QbResult.err VecError.dimensionMismatch
  else
    QbResult.ok ((List.range a.m_nDims).foldl
      (fun cumulativeSum i => cumulativeSum + atI a i * atI b i) 0)

/-- Static `cross(a, b)`: first the dimension-match check
(`"Vector dimensions must match..."`), then the dimension-3 check
(`"The cross-product can only be computed for three-dimensional vectors."`),
then the explicit three-component formula. -/
def cross (a b : qbVector α) : QbResult (qbVector α) :=
  if a.m_nDims ≠ b.m_nDims then QbResult.err VecError.dimensionMismatch
  else if a.m_nDims ≠ 3 then QbResult.err VecError.invalidDimension
  else
    QbResult.ok (qbVector.mkData
      [atI a 1 * atI b 2 - atI a 2 * atI b 1,
       -(atI a 0 * atI b 2 - atI a 2 * atI b 0),
       atI a 0 * atI b 1 - atI a 1 * atI b 0])

/-- Method `norm()`: `sqrt` of the cumulative sum of squares over `i < m_nDims`,
starting from `static_cast<T>(0.0)`.  Defined over `ℝ` (the source
instantiates `T = double`, cf. `using vec3 = qbVector<double>`). -/
noncomputable def qnorm (v : qbVector ℝ) : ℝ :=
  Real.sqrt ((List.range v.m_nDims).foldl
    (fun cumulativeSum i => cumulativeSum + atI v i * atI v i) 0)

/-- Method `Normalized()`: builds `result` from `m_vectorData` via the
`std::vector` constructor, then returns `result * (1.0 / vecNorm)` through
the scalar-multiplication operator. -/
noncomputable def Normalized (v : qbVector ℝ) : qbVector ℝ :=
  scalarMulR (qbVector.mkData v.m_vectorData) (1 / qnorm v)

/-- Method `Normalize()`: computes `vecNorm` once, then overwrites
`m_vectorData.at(i)` with `m_vectorData.at(i) * (1.0 / vecNorm)` for each
`i < m_nDims`, in place and in order. -/
noncomputable def Normalize (v : qbVector ℝ) : qbVector ℝ :=
  qbVector.mk
    ((List.range v.m_nDims).foldl
      (fun l i => l.set i (l.getD i 0 * (1 / qnorm v))) v.m_vectorData)
    v.m_nDims

/-- The class invariant: the stored dimension equals the length of the
backing storage (`elements.length == dimension`). -/
abbrev WF (v : qbVector α) : Prop :=
  v.m_vectorData.length = v.m_nDims

/-- Vectors reachable through the public interface: built by one of the
three constructors, or returned by a vector-valued operation (successful
outcomes only), or produced by an in-place mutation (`SetElement`, writing
through `operator[]`, `Normalize`).  Stated at `ℝ`, the source's own
instantiation (`using vec3 = qbVector<double>`), so the norm-dependent
operations are covered as well. -/
inductive Reachable : qbVector ℝ → Prop
  | mkDefaultR : Reachable qbVector.mkDefault
  | mkDimsR (n : ℕ) : Reachable (qbVector.mkDims n)
  | mkDataR (l : List ℝ) : Reachable (qbVector.mkData l)
  | addR {a b c : qbVector ℝ} : Reachable a → Reachable b →
      vecAdd a b = QbResult.ok c → Reachable c
  | subR {a b c : qbVector ℝ} : Reachable a → Reachable b →
      vecSub a b = QbResult.ok c → Reachable c
  | elemMulR {a b c : qbVector ℝ} : Reachable a → Reachable b →
      elemMul a b = QbResult.ok c → Reachable c
  | crossR {a b c : qbVector ℝ} : Reachable a → Reachable b →
      cross a b = QbResult.ok c → Reachable c
  | scalarMulRR {v : qbVector ℝ} (s : ℝ) : Reachable v →
      Reachable (scalarMulR v s)
  | scalarMulLR {v : qbVector ℝ} (s : ℝ) : Reachable v →
      Reachable (scalarMulL s v)
  | setElementR {v w : qbVector ℝ} {i : ℤ} {x : ℝ} : Reachable v →
      SetElement v i x = QbResult.ok w → Reachable w
  | opIndexWriteR {v w : qbVector ℝ} {i : ℕ} {x : ℝ} : Reachable v →
      opIndexWrite v i x = QbResult.ok w → Reachable w
  | normalizedR {v : qbVector ℝ} : Reachable v → Reachable (Normalized v)
  | normalizeR {v : qbVector ℝ} : Reachable v → Reachable (Normalize v)

/-- Two vectors with the same data members are equal. -/
lemma qbVector.eqOf {β : Type} {v w : qbVector β}
    (hd : v.m_vectorData = w.m_vectorData) (hn : v.m_nDims = w.m_nDims) :
    v = w := by
  cases v
  cases w
  cases hd
  cases hn
  rfl

/-- Elements of a list built by mapping a function over an index range. -/
lemma mapRange_getElem? {β : Type} (f : ℕ → β) (n i : ℕ) :
    ((List.range n).map f)[i]? = if i < n then some (f i) else none := by
  rcases lt_or_le i n with h | h
  · rw [List.getElem?_map, List.getElem?_range h]
    simp [h]
  · rw [List.getElem?_len_le (by simpa using h)]
    simp [Nat.not_lt.mpr h]

/-- Reading a known element through `getD`. -/
lemma getD_of_getElem? {l : List α} {i : ℕ} {x : α} (h : l[i]? = some x) :
    l.getD i 0 = x := by
  rw [List.getD_eq_getElem?_getD, h]
  rfl

/-- On a well-formed vector every index below `m_nDims` is in range and
yields the value the loops read through `at`. -/
lemma WF_getElem? {v : qbVector α} (hWF : WF v) {i : ℕ} (h : i < v.m_nDims) :
    v.m_vectorData[i]? = some (atI v i) := by
  have hl : i < v.m_vectorData.length := by rw [hWF]; exact h
  rw [List.getElem?_eq_getElem hl]
  unfold atI
  rw [List.getD_eq_getElem?_getD, List.getElem?_eq_getElem hl]
  rfl

/-- The in-place scaling loop of `Normalize` never changes the length of
the backing storage. -/
lemma foldl_set_length (s : α) (n : ℕ) (l : List α) :
    ((List.range n).foldl (fun acc i => acc.set i (acc.getD i 0 * s)) l).length
      = l.length := by
  induction n with
  | zero => rfl
  | succ m ih =>
    rw [List.range_succ, List.foldl_append]
    simp only [List.foldl_cons, List.foldl_nil, List.length_set]
    exact ih

/-- Elementwise description of the in-place scaling loop of `Normalize`:
positions below the loop bound are scaled, later positions are untouched. -/
lemma foldl_set_getElem? (s : α) (n : ℕ) (l : List α) (j : ℕ) :
    ((List.range n).foldl (fun acc i => acc.set i (acc.getD i 0 * s)) l)[j]? =
      if j < n then (l[j]?).map (fun x => x * s) else l[j]? := by
  induction n with
  | zero => simp
  | succ m ih =>
    rw [List.range_succ, List.foldl_append]
    simp only [List.foldl_cons, List.foldl_nil]
    rw [List.getElem?_set]
    rcases eq_or_ne m j with hmj | hmj
    · subst hmj
      simp only [if_pos rfl, foldl_set_length]
      rcases lt_or_le m l.length with hl | hl
      · rw [if_pos hl, List.getD_eq_getElem?_getD, ih, if_neg (lt_irrefl m),
          List.getElem?_eq_getElem hl]
        simp
      · rw [if_neg (Nat.not_lt.mpr hl), List.getElem?_len_le hl,
          if_pos (Nat.lt_succ_self m)]
        rfl
    · rw [if_neg hmj, ih]
      rcases lt_or_le j m with hj | hj
      · rw [if_pos hj, if_pos (by omega)]
      · rw [if_neg (by omega), if_neg (by omega)]

/-- An index holding a value is in range. -/
lemma lt_length_of_getElem? {β : Type} {l : List β} {i : ℕ} {x : β}
    (h : l[i]? = some x) : i < l.length :=
  (List.getElem?_eq_some.mp h).1

/-- C1: on equal dimensions `operator+` and `operator-` return a vector of
the same dimension whose `i`-th element is `a[i] + b[i]` (respectively
`a[i] - b[i]`); on differing dimensions both throw the dimension-mismatch
error. -/
theorem vecAdd_vecSub_spec (a b : qbVector α) (ha : WF a) (_hb : WF b) :
    (a.m_nDims = b.m_nDims →
      ∃ c d, vecAdd a b = QbResult.ok c ∧ vecSub a b = QbResult.ok d ∧
        c.m_nDims = a.m_nDims ∧ d.m_nDims = a.m_nDims ∧ WF c ∧ WF d ∧
        ∀ (i : ℕ) (x y : α), a.m_vectorData[i]? = some x →
          b.m_vectorData[i]? = some y →
          c.m_vectorData[i]? = some (x + y) ∧
          d.m_vectorData[i]? = some (x - y)) ∧
    (a.m_nDims ≠ b.m_nDims →
      vecAdd a b = QbResult.err VecError.dimensionMismatch ∧
      vecSub a b = QbResult.err VecError.dimensionMismatch) := by
  constructor
  · intro hdim
    refine ⟨qbVector.mkData ((List.range a.m_nDims).map (fun i => atI a i + atI b i)),
      qbVector.mkData ((List.range a.m_nDims).map (fun i => atI a i - atI b i)),
      by simp [vecAdd, hdim], by simp [vecSub, hdim],
      by simp [qbVector.mkData], by simp [qbVector.mkData],
      rfl, rfl, ?_⟩
    intro i x y hx hy
    have hi : i < a.m_nDims := by
      rw [← ha]
      exact lt_length_of_getElem? hx
    have hax : atI a i = x := getD_of_getElem? hx
    have hby : atI b i = y := getD_of_getElem? hy
    constructor
    · rw [show (qbVector.mkData ((List.range a.m_nDims).map
        (fun i => atI a i + atI b i))).m_vectorData
          = (List.range a.m_nDims).map (fun i => atI a i + atI b i) from rfl,
        mapRange_getElem?, if_pos hi, hax, hby]
    · rw [show (qbVector.mkData ((List.range a.m_nDims).map
        (fun i => atI a i - atI b i))).m_vectorData
          = (List.range a.m_nDims).map (fun i => atI a i - atI b i) from rfl,
        mapRange_getElem?, if_pos hi, hax, hby]
  · intro hdim
    exact ⟨by simp [vecAdd, hdim], by simp [vecSub, hdim]⟩

/-- Witness for C1: `[1, 2] + [10, 20]` and `[1, 2] - [10, 20]` over `ℚ`. -/
theorem vecAdd_vecSub_spec_witness :
    ∃ c d : qbVector ℚ,
      vecAdd (qbVector.mkData [1, 2]) (qbVector.mkData [10, 20]) = QbResult.ok c ∧
      vecSub (qbVector.mkData [1, 2]) (qbVector.mkData [10, 20]) = QbResult.ok d ∧
      c.m_vectorData[0]? = some (11 : ℚ) ∧ d.m_vectorData[0]? = some ((-9 : ℚ)) := by
  obtain ⟨c, d, hc, hd, _, _, _, _, helts⟩ :=
    (vecAdd_vecSub_spec (qbVector.mkData [(1 : ℚ), 2]) (qbVector.mkData [10, 20])
      rfl rfl).1 rfl
  obtain ⟨h0a, h0s⟩ := helts 0 1 10 rfl rfl
  exact ⟨c, d, hc, hd, by rw [h0a]; norm_num, by rw [h0s]; norm_num⟩

/-- C4: `cross` checks the dimension match first (dimension-mismatch error)
and only then the dimension-is-3 requirement (invalid-dimension error), so
two equal-length non-3-dimensional vectors get the invalid-dimension
error. -/
theorem cross_check_order (a b : qbVector α) :
    (a.m_nDims ≠ b.m_nDims →
      cross a b = QbResult.err VecError.dimensionMismatch) ∧
    (a.m_nDims = b.m_nDims → a.m_nDims ≠ 3 →
      cross a b = QbResult.err VecError.invalidDimension) := by
  constructor
  · intro hdim
    simp [cross, hdim]
  · intro hdim h3
    unfold cross
    rw [if_neg (not_not_intro hdim), if_pos h3]

/-- Witness for C4: `cross` on two 4-dimensional vectors over `ℚ` throws
the invalid-dimension error, not the dimension-mismatch one. -/
theorem cross_check_order_witness :
    cross (qbVector.mkDims 4) (qbVector.mkData [(1 : ℚ), 2, 3, 4])
      = QbResult.err VecError.invalidDimension :=
  (cross_check_order (qbVector.mkDims 4) (qbVector.mkData [(1 : ℚ), 2, 3, 4])).2
    rfl (by decide)

omit [Field α] in
/-- C9: in both checked indexing operators the `idx < 0` half of the bounds
check is dead — `idx` is an unsigned `size_t` — and the index-out-of-range
error fires exactly when `idx >= m_nDims`. -/
theorem opIndex_negative_branch_dead (v : qbVector α) (idx : ℕ) :
    ¬ idx < 0 ∧
    (opIndexConst v idx = QbResult.err VecError.indexOutOfRange
      ↔ v.m_nDims ≤ idx) ∧
    (opIndexRead v idx = QbResult.err VecError.indexOutOfRange
      ↔ v.m_nDims ≤ idx) ∧
    ∀ x, opIndexWrite v idx x = QbResult.err VecError.indexOutOfRange
      ↔ v.m_nDims ≤ idx := by
  refine ⟨Nat.not_lt_zero idx, ?_, ?_, ?_⟩
  · unfold opIndexConst
    rcases le_or_lt v.m_nDims idx with h | h
    · simp [h]
    · rw [if_neg (by omega)]
      constructor
      · intro hcontra
        rcases hget : v.m_vectorData[idx]? with _ | x <;> simp [hget] at hcontra
      · omega
  · unfold opIndexRead
    rcases le_or_lt v.m_nDims idx with h | h
    · simp [h]
    · rw [if_neg (by omega)]
      constructor
      · intro hcontra
        rcases hget : v.m_vectorData[idx]? with _ | x <;> simp [hget] at hcontra
      · omega
  · intro x
    unfold opIndexWrite
    rcases le_or_lt v.m_nDims idx with h | h
    · simp [h]
    · rw [if_neg (by omega)]
      constructor
      · intro hcontra
        by_cases hl : idx < v.m_vectorData.length <;> simp [hl] at hcontra
      · omega

/-- Witness for C9: index 5 on a 3-dimensional vector over `ℚ` trips the
`idx >= m_nDims` half of the check. -/
theorem opIndex_negative_branch_dead_witness :
    opIndexConst (qbVector.mkData [(1 : ℚ), 2, 3]) 5
      = QbResult.err VecError.indexOutOfRange :=
  (opIndex_negative_branch_dead (qbVector.mkData [(1 : ℚ), 2, 3]) 5).2.1.mpr
    (by decide)

/-- C10: `dot` on two 0-dimensional vectors passes the dimension check and
returns the empty cumulative sum `0` instead of failing. -/
theorem dot_empty (a b : qbVector α) (ha : a.m_nDims = 0) (hb : b.m_nDims = 0) :
    dot a b = QbResult.ok 0 := by
  simp [dot, ha, hb]

/-- Witness for C10: the dot product of two default-constructed vectors
over `ℚ`. -/
theorem dot_empty_witness :
    dot (qbVector.mkDefault : qbVector ℚ) qbVector.mkDefault = QbResult.ok 0 :=
  dot_empty qbVector.mkDefault qbVector.mkDefault rfl rfl

/-- C2: on two well-formed 3-dimensional vectors `[a0, a1, a2]` and
`[b0, b1, b2]`, `cross` returns
`[a1*b2 - a2*b1, -(a0*b2 - a2*b0), a0*b1 - a1*b0]`. -/
theorem cross_formula (a b : qbVector α) (a0 a1 a2 b0 b1 b2 : α)
    (ha : WF a) (hb : WF b)
    (hda : a.m_vectorData = [a0, a1, a2]) (hdb : b.m_vectorData = [b0, b1, b2]) :
    cross a b = QbResult.ok (qbVector.mkData
      [a1 * b2 - a2 * b1, -(a0 * b2 - a2 * b0), a0 * b1 - a1 * b0]) := by
  have h3a : a.m_nDims = 3 := by rw [← ha, hda]; rfl
  have h3b : b.m_nDims = 3 := by rw [← hb, hdb]; rfl
  unfold cross
  rw [if_neg (by omega), if_neg (not_not_intro h3a)]
  unfold atI
  rw [hda, hdb]
  rfl

/-- Witness for C2: the spec's end-to-end example `e1 x e2 = e3` over `ℚ`. -/
theorem cross_formula_witness :
    cross (qbVector.mkData [(1 : ℚ), 0, 0]) (qbVector.mkData [0, 1, 0])
      = QbResult.ok (qbVector.mkData [0, 0, 1]) := by
  have h := cross_formula (qbVector.mkData [(1 : ℚ), 0, 0])
    (qbVector.mkData [0, 1, 0]) 1 0 0 0 1 0 rfl rfl rfl rfl
  refine h.trans ?_
  norm_num [qbVector.mkData]

/-- C6: left and right scalar multiplication agree, the result keeps the
operand's dimension with `i`-th element `v[i] * s`, and neither form has a
dimension precondition or a failure outcome (both return a plain vector). -/
theorem scalarMul_comm_spec (v : qbVector α) (s : α) (hWF : WF v) :
    scalarMulL s v = scalarMulR v s ∧
    (scalarMulR v s).m_nDims = v.m_nDims ∧
    ∀ (i : ℕ) (x : α), v.m_vectorData[i]? = some x →
      (scalarMulR v s).m_vectorData[i]? = some (x * s) := by
  refine ⟨?_, by simp [scalarMulR, qbVector.mkData], ?_⟩
  · unfold scalarMulL scalarMulR
    congr 1
    apply List.map_congr_left
    intro i _
    exact mul_comm s (atI v i)
  · intro i x hx
    have hi : i < v.m_nDims := by
      rw [← hWF]
      exact lt_length_of_getElem? hx
    have hax : atI v i = x := getD_of_getElem? hx
    show ((List.range v.m_nDims).map (fun i => atI v i * s))[i]? = some (x * s)
    rw [mapRange_getElem?, if_pos hi, hax]

/-- Witness for C6: scaling `[2, 3]` by `5` over `ℚ`, in both orders. -/
theorem scalarMul_comm_spec_witness :
    scalarMulL (5 : ℚ) (qbVector.mkData [2, 3])
        = scalarMulR (qbVector.mkData [2, 3]) 5 ∧
    scalarMulR (qbVector.mkData [(2 : ℚ), 3]) 5 = qbVector.mkData [10, 15] :=
  ⟨(scalarMul_comm_spec (qbVector.mkData [(2 : ℚ), 3]) 5 rfl).1,
    by norm_num [scalarMulR, qbVector.mkData, atI, List.range_succ]⟩

/-- C7: on equal dimensions, `operator-` computes the same vector as
`operator+` applied to the right operand scaled by `-1`. -/
theorem vecSub_eq_vecAdd_scale_neg_one (a b : qbVector α)
    (h : a.m_nDims = b.m_nDims) :
    vecSub a b = vecAdd a (scalarMulR b (-1)) := by
  have hdim : (scalarMulR b (-1)).m_nDims = b.m_nDims := by
    simp [scalarMulR, qbVector.mkData]
  unfold vecSub vecAdd
  rw [if_neg (not_not_intro h), if_neg (by rw [hdim]; exact not_not_intro h)]
  congr 2
  apply List.map_congr_left
  intro i hi
  have hi' : i < b.m_nDims := by
    rw [← h]
    exact List.mem_range.mp hi
  have hscaled : atI (scalarMulR b (-1)) i = atI b i * (-1) := by
    unfold atI scalarMulR qbVector.mkData
    rw [List.getD_eq_getElem?_getD, mapRange_getElem?, if_pos hi']
    rfl
  rw [hscaled]
  ring

/-- Witness for C7: `[5, 7] - [2, 3]` against `[5, 7] + [2, 3] * (-1)`
over `ℚ`. -/
theorem vecSub_eq_vecAdd_scale_neg_one_witness :
    vecSub (qbVector.mkData [(5 : ℚ), 7]) (qbVector.mkData [2, 3])
      = vecAdd (qbVector.mkData [(5 : ℚ), 7])
          (scalarMulR (qbVector.mkData [2, 3]) (-1)) :=
  vecSub_eq_vecAdd_scale_neg_one _ _ rfl

/-- Counterexample for C3: `GetElement(5)` on the 3-dimensional vector
`[1, 2, 3]` is an unchecked out-of-range `std::vector::operator[]` access —
undefined behavior — and in particular not an index-out-of-range error:
`GetElement` and `SetElement` contain no bounds check at all. -/
theorem GetElement_unchecked_cex :
    GetElement (qbVector.mkData [(1 : ℚ), 2, 3]) 5 = QbResult.undef ∧
    GetElement (qbVector.mkData [(1 : ℚ), 2, 3]) 5
      ≠ QbResult.err VecError.indexOutOfRange := by
  constructor
  · rfl
  · intro h
    exact QbResult.noConfusion (h.symm.trans rfl)

omit [Field α] in
/-- C3 (amended): `GetElement` and `SetElement` are unchecked — every
out-of-range index (negative or at least the dimension) is undefined
behavior, never a thrown error — while the checked indexing operators are
the accessors that throw the index-out-of-range error for every index at
or above the dimension. -/
theorem element_access_spec (v : qbVector α) (hWF : WF v) :
    (∀ index : ℤ, index < 0 ∨ (v.m_nDims : ℤ) ≤ index →
      GetElement v index = QbResult.undef ∧
      ∀ value, SetElement v index value = QbResult.undef) ∧
    (∀ idx : ℕ, v.m_nDims ≤ idx →
      opIndexConst v idx = QbResult.err VecError.indexOutOfRange ∧
      opIndexRead v idx = QbResult.err VecError.indexOutOfRange) := by
  constructor
  · intro index hout
    rcases lt_or_le index 0 with hneg | hnonneg
    · exact ⟨by simp [GetElement, hneg], fun value => by simp [SetElement, hneg]⟩
    · have hge : v.m_nDims ≤ index.toNat := by omega
      have hlen : v.m_vectorData.length ≤ index.toNat := by rw [hWF]; exact hge
      have hnone : v.m_vectorData.get? index.toNat = none := by
        rw [List.get?_eq_getElem?]
        exact List.getElem?_len_le hlen
      refine ⟨?_, fun value => ?_⟩
      · unfold GetElement
        rw [if_neg (by omega), hnone]
      · unfold SetElement
        rw [if_neg (by omega), if_neg (by omega)]
  · intro idx hidx
    exact ⟨by simp [opIndexConst, hidx], by simp [opIndexRead, hidx]⟩

/-- Witness for the amended C3: index 5 on the 3-dimensional vector
`[1, 2, 3]` over `ℚ`: unchecked access is undefined behavior while the
checked operator throws. -/
theorem element_access_spec_witness :
    GetElement (qbVector.mkData [(4 : ℚ), 5, 6]) 5 = QbResult.undef ∧
    opIndexConst (qbVector.mkData [(4 : ℚ), 5, 6]) 5
      = QbResult.err VecError.indexOutOfRange :=
  ⟨((element_access_spec (qbVector.mkData [(4 : ℚ), 5, 6]) rfl).1 5
      (by decide)).1,
   ((element_access_spec (qbVector.mkData [(4 : ℚ), 5, 6]) rfl).2 5
      (by decide)).1⟩

/-- C5: on a well-formed vector of non-zero norm, the in-place `Normalize`
leaves the vector holding exactly the dimension and elements that the
copying `Normalized` returns: both scale every element by `1 / norm`. -/
theorem Normalize_eq_Normalized (v : qbVector ℝ) (hWF : WF v)
    (_hn : qnorm v ≠ 0) :
    Normalize v = Normalized v := by
  apply qbVector.eqOf
  · show ((List.range v.m_nDims).foldl
        (fun l i => l.set i (l.getD i 0 * (1 / qnorm v))) v.m_vectorData)
      = ((List.range v.m_vectorData.length).map
          (fun i => v.m_vectorData.getD i 0 * (1 / qnorm v)))
    apply List.ext_getElem?
    intro j
    rw [foldl_set_getElem?, mapRange_getElem?]
    rcases lt_or_le j v.m_nDims with hj | hj
    · have hjl : j < v.m_vectorData.length := by rw [hWF]; exact hj
      have hgd : v.m_vectorData.getD j 0 = v.m_vectorData[j] := by
        rw [List.getD_eq_getElem?_getD, List.getElem?_eq_getElem hjl]
        rfl
      rw [if_pos hj, if_pos hjl, List.getElem?_eq_getElem hjl, hgd]
      rfl
    · have hjl : v.m_vectorData.length ≤ j := by rw [hWF]; exact hj
      rw [if_neg (by omega), if_neg (by omega)]
      exact List.getElem?_len_le hjl
  · show v.m_nDims = (Normalized v).m_nDims
    simp [Normalized, scalarMulR, qbVector.mkData, hWF]

/-- Witness for C5: normalizing `[1, 0, 0]` over `ℝ`, in place and by
copy. -/
theorem Normalize_eq_Normalized_witness :
    WF (qbVector.mkData [(1 : ℝ), 0, 0]) ∧
    qnorm (qbVector.mkData [(1 : ℝ), 0, 0]) ≠ 0 ∧
    Normalize (qbVector.mkData [(1 : ℝ), 0, 0])
      = Normalized (qbVector.mkData [(1 : ℝ), 0, 0]) := by
  have hn : qnorm (qbVector.mkData [(1 : ℝ), 0, 0]) ≠ 0 := by
    have hval : qnorm (qbVector.mkData [(1 : ℝ), 0, 0])
        = Real.sqrt (0 + 1 * 1 + 0 * 0 + 0 * 0) := rfl
    rw [hval, show ((0 : ℝ) + 1 * 1 + 0 * 0 + 0 * 0) = 1 by norm_num,
      Real.sqrt_one]
    exact one_ne_zero
  exact ⟨rfl, hn, Normalize_eq_Normalized (qbVector.mkData [(1 : ℝ), 0, 0]) rfl hn⟩

/-- C8: every vector reachable through the public interface satisfies the
`elements.length == dimension` invariant, and no in-place operation
(`SetElement`, writing through `operator[]`, `Normalize`) changes the
stored dimension. -/
theorem reachable_WF :
    (∀ v : qbVector ℝ, Reachable v → WF v) ∧
    (∀ v : qbVector ℝ, (Normalize v).m_nDims = v.m_nDims) ∧
    (∀ (v w : qbVector ℝ) (i : ℤ) (x : ℝ),
      SetElement v i x = QbResult.ok w → w.m_nDims = v.m_nDims) ∧
    (∀ (v w : qbVector ℝ) (i : ℕ) (x : ℝ),
      opIndexWrite v i x = QbResult.ok w → w.m_nDims = v.m_nDims) := by
  refine ⟨?_, fun v => rfl, ?_, ?_⟩
  · intro v h
    induction h with
    | mkDefaultR => rfl
    | mkDimsR n => simp [WF, qbVector.mkDims]
    | mkDataR l => rfl
    | addR ha hb heq iha ihb =>
      unfold vecAdd at heq
      split at heq
      · exact absurd heq (by simp)
      · cases heq
        rfl
    | subR ha hb heq iha ihb =>
      unfold vecSub at heq
      split at heq
      · exact absurd heq (by simp)
      · cases heq
        rfl
    | elemMulR ha hb heq iha ihb =>
      unfold elemMul at heq
      split at heq
      · exact absurd heq (by simp)
      · cases heq
        rfl
    | crossR ha hb heq iha ihb =>
      unfold cross at heq
      split at heq
      · exact absurd heq (by simp)
      · split at heq
        · exact absurd heq (by simp)
        · cases heq
          rfl
    | scalarMulRR s hv ihv => rfl
    | scalarMulLR s hv ihv => rfl
    | setElementR hv heq ihv =>
      unfold SetElement at heq
      split at heq
      · exact absurd heq (by simp)
      · split at heq
        · cases heq
          show (List.set _ _ _).length = _
          rw [List.length_set]
          exact ihv
        · exact absurd heq (by simp)
    | opIndexWriteR hv heq ihv =>
      unfold opIndexWrite at heq
      split at heq
      · exact absurd heq (by simp)
      · split at heq
        · cases heq
          show (List.set _ _ _).length = _
          rw [List.length_set]
          exact ihv
        · exact absurd heq (by simp)
    | normalizedR hv ihv => rfl
    | normalizeR hv ihv =>
      exact (foldl_set_length _ _ _).trans ihv
  · intro v w i x heq
    unfold SetElement at heq
    split at heq
    · exact absurd heq (by simp)
    · split at heq
      · cases heq
        rfl
      · exact absurd heq (by simp)
  · intro v w i x heq
    unfold opIndexWrite at heq
    split at heq
    · exact absurd heq (by simp)
    · split at heq
      · cases heq
        rfl
      · exact absurd heq (by simp)

/-- Witness for C8: a vector built from data, scaled, then normalized in
place still satisfies the invariant. -/
theorem reachable_WF_witness :
    WF (Normalize (scalarMulR (qbVector.mkData [(1 : ℝ), 2]) 3)) :=
  reachable_WF.1 _
    (Reachable.normalizeR (Reachable.scalarMulRR 3 (Reachable.mkDataR [1, 2])))

end QbLinAlg
